import Mathlib

/-!
Verification of the upower-notify event-to-action dispatch engine.

The definitions in this file are a shallow embedding of the Rust sources
`src/main.rs` and `src/config.rs`:

* pure functions (`format_duration`, `generate_body`, `parse_timeout`,
  the two event-to-config `match` expressions in `main`) become Lean
  functions of the same shape;
* the per-event body of the `loop`/`tokio::select!` reactor becomes a
  step function producing the new channel state plus a trace of the
  externally visible actions (command spawns, notification close,
  metrics fetch, notification show), and the loop itself becomes a
  recursion over the list of select outcomes;
* machine integers are modelled as `Nat`/`Int` with explicit `% 2 ^ 64`
  where the Rust code performs an `as` cast;
* the external transports (bus property reads, notification display,
  process spawner) are oracles: the device metrics are inputs, the
  notification handle returned by show is drawn from a fresh counter,
  and per-command spawn success is an arbitrary boolean function.
-/

/-! ## Data model from `src/config.rs` -/

/-- `UrgencyConfig` from `src/config.rs`. -/
inductive UrgencyConfig where
  | Low
  | Normal
  | Critical
deriving DecidableEq, Repr

/-- `NotificationConfig` from `src/config.rs` (timeout is a Rust `u32`,
modelled as `Nat`). -/
structure NotificationConfig where
  enable : Bool
  summary : String
  body : String
  icon : String
  timeout : Nat
  urgency : UrgencyConfig
deriving DecidableEq, Repr

/-- `ExecConfig` from `src/config.rs`. -/
structure ExecConfig where
  commands : List String
deriving DecidableEq, Repr

/-- `EventConfig` from `src/config.rs`. -/
structure EventConfig where
  notification : NotificationConfig
  exec : ExecConfig
deriving DecidableEq, Repr

/-- `WarningLevelConfig` from `src/config.rs`. -/
structure WarningLevelConfig where
  unknown : EventConfig
  none : EventConfig
  discharging : EventConfig
  low : EventConfig
  critical : EventConfig
  action : EventConfig
deriving DecidableEq, Repr

/-- `StateConfig` from `src/config.rs`. -/
structure StateConfig where
  unknown : EventConfig
  charging : EventConfig
  discharging : EventConfig
  empty : EventConfig
  fully_charged : EventConfig
  pending_charge : EventConfig
  pending_discharge : EventConfig
deriving DecidableEq, Repr

/-- `Config` from `src/config.rs`. -/
structure Config where
  device : String
  warning_level : WarningLevelConfig
  state : StateConfig
deriving DecidableEq, Repr

/-! ## Event enumerations from `src/main.rs` -/

/-- `WarningLevel` from `src/main.rs` (repr u32 discriminants 0..5 are
irrelevant to the engine and omitted). -/
inductive WarningLevel where
  | Unknown
  | None
  | Discharging
  | Low
  | Critical
  | Action
deriving DecidableEq, Repr

/-- `State` from `src/main.rs` (repr u32 discriminants 0..6 omitted). -/
inductive State where
  | Unknown
  | Charging
  | Discharging
  | Empty
  | FullyCharged
  | PendingCharge
  | PendingDischarge
deriving DecidableEq, Repr

/-- `notify_rust::Timeout`, the type produced by the `parse_timeout`
closure in `main`. -/
inductive Timeout where
  | Default
  | Never
  | Milliseconds (ms : Nat)
deriving DecidableEq, Repr

/-- The `parse_timeout` closure in `main` (`src/main.rs` lines 95-98):
`0 => Timeout::Never, ms => Timeout::Milliseconds(ms)`. -/
def parse_timeout (t : Nat) : Timeout :=
  match t with
  | 0 => Timeout.Never
  | ms => Timeout.Milliseconds ms

/-- The `match event` on the warning-level select arm of `main`
(`src/main.rs` lines 105-112). -/
def resolveWarningLevel (c : WarningLevelConfig) : WarningLevel → EventConfig
  | WarningLevel.Unknown => c.unknown
  | WarningLevel.None => c.none
  | WarningLevel.Discharging => c.discharging
  | WarningLevel.Low => c.low
  | WarningLevel.Critical => c.critical
  | WarningLevel.Action => c.action

/-- The `match event` on the power-state select arm of `main`
(`src/main.rs` lines 119-127). -/
def resolveState (c : StateConfig) : State → EventConfig
  | State.Unknown => c.unknown
  | State.Charging => c.charging
  | State.Discharging => c.discharging
  | State.Empty => c.empty
  | State.FullyCharged => c.fully_charged
  | State.PendingCharge => c.pending_charge
  | State.PendingDischarge => c.pending_discharge

/-! ## `format_duration` from `src/main.rs` -/

/-- Rust `Vec::join(", ")` on a list of strings, as used by
`parts.join(", ")` in `format_duration`. -/
def joinCommaSpace : List (List Char) → List Char
  | [] => []
  | [x] => x
  | x :: xs => x ++ ", ".data ++ joinCommaSpace xs

/-- `format_duration` from `src/main.rs` lines 179-201.  The input is
`duration.as_secs()` (a `u64`, modelled as `Nat`); the output string is
modelled as its character list. -/
def format_duration (total_seconds : Nat) : List Char :=
  let hours := total_seconds / 3600
  let minutes := (total_seconds % 3600) / 60
  let parts : List (List Char) :=
    (if hours > 0 then
      [(Nat.repr hours).data ++ " ".data ++
        (if hours = 1 then "hour".data else "hours".data)]
     else []) ++
    (if minutes > 0 then
      [(Nat.repr minutes).data ++ " ".data ++
        (if minutes = 1 then "minute".data else "minutes".data)]
     else [])
  let parts := if parts.isEmpty then ["0 minutes".data] else parts
  joinCommaSpace parts

/-- Spec-side restatement of the Duration Formatter contract, written
from the specification text alone: decompose into whole hours and whole
remaining minutes, emit an hours clause only if hours > 0 and a minutes
clause only if minutes > 0 (singular exactly at 1), join with ", " in
hours-then-minutes order, and yield "0 minutes" when both are zero. -/
def formatDurationSpec (total_seconds : Nat) : List Char :=
  let hours := total_seconds / 3600
  let minutes := (total_seconds % 3600) / 60
  let hoursClause :=
    (Nat.repr hours).data ++ (if hours = 1 then " hour".data else " hours".data)
  let minutesClause :=
    (Nat.repr minutes).data ++
      (if minutes = 1 then " minute".data else " minutes".data)
  if hours = 0 ∧ minutes = 0 then "0 minutes".data
  else if minutes = 0 then hoursClause
  else if hours = 0 then minutesClause
  else hoursClause ++ ", ".data ++ minutesClause

/-! ## Rust `str::replace` and `generate_body` from `src/main.rs` -/

/-- Fuel-indexed scanner implementing Rust `str::replace` for a nonempty
pattern: leftmost, non-overlapping occurrences of `pat` are replaced by
`rep`.  The fuel (always instantiated with the string length, which
bounds the recursion depth) keeps the definition structural so that it
evaluates inside the kernel. -/
def replaceAllAux : Nat → List Char → List Char → List Char → List Char
  | 0, s, _, _ => s
  | fuel + 1, s, pat, rep =>
    match s with
    | [] => []
    | c :: rest =>
      if pat ≠ [] ∧ pat.isPrefixOf (c :: rest) then
        rep ++ replaceAllAux fuel ((c :: rest).drop pat.length) pat rep
      else
        c :: replaceAllAux fuel rest pat rep

/-- Rust `str::replace` (as called with the nonempty literal patterns of
`generate_body`), on character lists. -/
def replaceAll (s pat rep : List Char) : List Char :=
  replaceAllAux s.length s pat rep

/-- The character `{` (written via its code point to keep it out of
string-interpolation position). -/
def lbrace : Char := Char.ofNat 123

/-- The literal placeholder `"{time}"` from `generate_body`. -/
def timeTok : List Char := "\x7btime\x7d".data

/-- The literal placeholder `"{percentage}"` from `generate_body`. -/
def pctTok : List Char := "\x7bpercentage\x7d".data

/-- The Rust `as u64` cast applied to the `i64` time-to-empty value in
`generate_body`: a two's-complement reinterpretation, i.e. reduction
modulo `2 ^ 64` into `[0, 2 ^ 64)`. -/
def asU64 (v : Int) : Nat :=
  (v % (2 ^ 64 : Int)).toNat

/-- `generate_body` from `src/main.rs` lines 169-177.  The transport
reads are oracle inputs: `time_val` is the `i64` returned by
`device.time_to_empty()`, and `percentage` is the text of
`device.percentage().to_string()` (the `f64`-to-decimal rendering is
outside the engine and is taken as the character list it produces).
The fallible transports are modelled as returning these values. -/
def generate_body (time_val : Int) (percentage : List Char)
    (template : List Char) : List Char :=
  let time := asU64 time_val
  replaceAll (replaceAll template timeTok (format_duration time)) pctTok percentage

/-- Fuel-indexed scanner for the specification's reading of the Template
Renderer, with the fuel always instantiated with the string length so
the definition stays structural and kernel-evaluable. -/
def renderSpecAux (fd pct : List Char) : Nat → List Char → List Char
  | 0, s => s
  | fuel + 1, s =>
    match s with
    | [] => []
    | c :: rest =>
      if timeTok.isPrefixOf (c :: rest) then
        fd ++ renderSpecAux fd pct fuel ((c :: rest).drop timeTok.length)
      else if pctTok.isPrefixOf (c :: rest) then
        pct ++ renderSpecAux fd pct fuel ((c :: rest).drop pctTok.length)
      else
        c :: renderSpecAux fd pct fuel rest

/-- Spec-side restatement of the Template Renderer contract, written
from the specification's words: scan the template left to right and
replace every occurrence of the literal time token with the
Duration-Formatter text `fd` and every occurrence of the literal
percentage token with the percentage text `pct`, copying all other
characters — including any other brace placeholder — verbatim, so that
repeated occurrences all receive the identical value and a template
without either token is returned unchanged.  (The two tokens can never
overlap, so the scan order between them is immaterial.) -/
def renderSpec (fd pct s : List Char) : List Char :=
  renderSpecAux fd pct s.length s

/-! ## The dispatch loop from `src/main.rs` -/

/-- The two independent logical channels of `main`: the slot
`warning_notification` for the warning-level stream and
`state_notification` for the power-state stream. -/
inductive Chan where
  | warning
  | state
deriving DecidableEq, Repr

/-- Notification handles are identified by the order in which `show`
produced them; `NotificationHandle` is opaque in the source, with close
as its only operation. -/
abbrev Handle := Nat

/-- The externally visible actions of one pass through the loop body:
spawning a shell command (with the oracle's success bit, whose failure
the code only logs), closing a channel's previous notification handle,
fetching fresh metrics from the device, and showing a notification
(returning a fresh handle). -/
inductive Act where
  | spawnCmd (cmd : String) (ok : Bool)
  | closeHandle (ch : Chan) (h : Handle)
  | fetchMetrics
  | showHandle (ch : Chan) (h : Handle)
deriving DecidableEq, Repr

/-- The two per-channel slots `warning_notification` and
`state_notification` of `main` (both start as `None`). -/
structure Channels where
  warning : Option Handle
  state : Option Handle
deriving DecidableEq, Repr

/-- Result of one pass through the loop body for the selected channel. -/
structure StepOut where
  slot : Option Handle
  fresh : Nat
  trace : List Act
deriving DecidableEq, Repr

/-- The loop body of `main` (`src/main.rs` lines 137-163) after the
select arm has picked `(active_handle, selected_config)`: run every
exec command (spawn failures are only logged), close and clear the
channel's previous handle if present, and if the notification is
enabled fetch metrics, render, show, and store the new handle.  `fresh`
is the id the notification transport will hand out next. -/
def handleEvent (ch : Chan) (cfg : EventConfig) (slot : Option Handle)
    (fresh : Nat) (spawnOk : String → Bool) : StepOut :=
  { slot := if cfg.notification.enable then some fresh else none
    fresh := if cfg.notification.enable then fresh + 1 else fresh
    trace :=
      (cfg.exec.commands.map fun c => Act.spawnCmd c (spawnOk c)) ++
      (match slot with
       | some h => [Act.closeHandle ch h]
       | none => []) ++
      (if cfg.notification.enable then
        [Act.fetchMetrics, Act.showHandle ch fresh]
       else []) }

/-- One iteration of the loop on a warning-level event: the select arm
resolves the event to its config sub-tree and hands the loop body the
warning channel's slot. -/
def stepWarning (config : Config) (spawnOk : String → Bool) (st : Channels)
    (fresh : Nat) (w : WarningLevel) : Channels × Nat × List Act :=
  let r := handleEvent Chan.warning (resolveWarningLevel config.warning_level w)
    st.warning fresh spawnOk
  ({ st with warning := r.slot }, r.fresh, r.trace)

/-- One iteration of the loop on a power-state event, on the state
channel. -/
def stepState (config : Config) (spawnOk : String → Bool) (st : Channels)
    (fresh : Nat) (s : State) : Channels × Nat × List Act :=
  let r := handleEvent Chan.state (resolveState config.state s)
    st.state fresh spawnOk
  ({ st with state := r.slot }, r.fresh, r.trace)

/-- One outcome of the `tokio::select!` at the top of the loop: a
warning-level event, a power-state event, or the ctrl-c cancellation
signal. -/
inductive SelectMsg where
  | warningEv (w : WarningLevel)
  | stateEv (s : State)
  | ctrlC
deriving DecidableEq, Repr

/-- Result of running the loop on a sequence of select outcomes.
`cleanExit` records whether the loop left via the `break` of the ctrl-c
arm (after which `main` returns `Ok(())`). -/
structure RunOut where
  channels : Channels
  fresh : Nat
  trace : List Act
  cleanExit : Bool
deriving DecidableEq, Repr

/-- The `loop` of `main` (`src/main.rs` lines 100-164), run over a list
of select outcomes in arrival order: each event is handled to
completion by the loop body; the ctrl-c arm breaks immediately,
ignoring any still-buffered events after it. -/
def runLoop (config : Config) (spawnOk : String → Bool) :
    List SelectMsg → Channels → Nat → RunOut
  | [], st, fresh => ⟨st, fresh, [], false⟩
  | SelectMsg.ctrlC :: _, st, fresh => ⟨st, fresh, [], true⟩
  | SelectMsg.warningEv w :: rest, st, fresh =>
    let p := stepWarning config spawnOk st fresh w
    let r := runLoop config spawnOk rest p.1 p.2.1
    ⟨r.channels, r.fresh, p.2.2 ++ r.trace, r.cleanExit⟩
  | SelectMsg.stateEv s :: rest, st, fresh =>
    let p := stepState config spawnOk st fresh s
    let r := runLoop config spawnOk rest p.1 p.2.1
    ⟨r.channels, r.fresh, p.2.2 ++ r.trace, r.cleanExit⟩

/-- Interpretation of one action on the set of a channel's currently
displayed notification handles: show opens a handle, close removes it,
all other actions (and actions of other channels) leave it unchanged. -/
def applyAct (ch : Chan) (acc : List Handle) : Act → List Handle
  | Act.showHandle c h => if c = ch then acc ++ [h] else acc
  | Act.closeHandle c h => if c = ch then acc.erase h else acc
  | _ => acc

/-- The handles of channel `ch` still open after a trace, starting from
no open notifications. -/
def openAfter (ch : Chan) (tr : List Act) : List Handle :=
  tr.foldl (applyAct ch) []

/-- The slot of the given channel inside the loop state. -/
def chanSlot (ch : Chan) (st : Channels) : Option Handle :=
  match ch with
  | Chan.warning => st.warning
  | Chan.state => st.state

/-- All prefixes of the trace keep at most one open handle on channel
`ch` when starting from the open-handle set `acc`. -/
def BoundedFold (ch : Chan) (acc : List Handle) (tr : List Act) : Prop :=
  ∀ n : Nat, (List.foldl (applyAct ch) acc (tr.take n)).length ≤ 1

/-- The character `}` via its code point. -/
def rbrace : Char := Char.ofNat 125

/-! ## Lemmas about the replace scanner -/

theorem replaceAllAux_nil (fuel : Nat) (pat rep : List Char) :
    replaceAllAux fuel [] pat rep = [] := by
  cases fuel <;> simp [replaceAllAux]

theorem replaceAllAux_irrel (pat rep : List Char) :
    ∀ (f₁ : Nat) (s : List Char) (f₂ : Nat), s.length ≤ f₁ → s.length ≤ f₂ →
      replaceAllAux f₁ s pat rep = replaceAllAux f₂ s pat rep := by
  intro f₁
  induction f₁ with
  | zero =>
    intro s f₂ h₁ _
    have : s = [] := List.eq_nil_of_length_eq_zero (Nat.le_zero.mp h₁)
    subst this
    simp [replaceAllAux, replaceAllAux_nil]
  | succ f ih =>
    intro s f₂ h₁ h₂
    match s with
    | [] => simp [replaceAllAux_nil]
    | c :: rest =>
      match f₂ with
      | 0 => simp at h₂
      | g + 1 =>
        simp only [replaceAllAux]
        by_cases hcond : pat ≠ [] ∧ pat.isPrefixOf (c :: rest)
        · simp only [if_pos hcond]
          congr 1
          have hlen : ((c :: rest).drop pat.length).length ≤ rest.length := by
            simp only [List.length_drop, List.length_cons]
            have : 1 ≤ pat.length := by
              cases pat with
              | nil => exact absurd rfl hcond.1
              | cons p pt => simp
            omega
          exact ih _ g (le_trans hlen (by simp at h₁; omega))
            (le_trans hlen (by simp at h₂; omega))
        · simp only [if_neg hcond]
          congr 1
          exact ih rest g (by simp at h₁; omega) (by simp at h₂; omega)

theorem replaceAll_nil (pat rep : List Char) : replaceAll [] pat rep = [] := rfl

theorem replaceAll_cons (c : Char) (rest pat rep : List Char) :
    replaceAll (c :: rest) pat rep =
      if pat ≠ [] ∧ pat.isPrefixOf (c :: rest) then
        rep ++ replaceAll ((c :: rest).drop pat.length) pat rep
      else
        c :: replaceAll rest pat rep := by
  show replaceAllAux (rest.length + 1) (c :: rest) pat rep = _
  simp only [replaceAllAux]
  by_cases hcond : pat ≠ [] ∧ pat.isPrefixOf (c :: rest)
  · simp only [if_pos hcond]
    congr 1
    apply replaceAllAux_irrel
    · simp only [List.length_drop, List.length_cons]
      have : 1 ≤ pat.length := by
        cases pat with
        | nil => exact absurd rfl hcond.1
        | cons p pt => simp
      omega
    · exact le_rfl
  · simp only [if_neg hcond]
    rfl

/-- A string that does not contain the pattern is returned unchanged. -/
theorem replaceAll_of_absent (pat rep : List Char) :
    ∀ s : List Char, ¬ pat <:+: s → replaceAll s pat rep = s := by
  intro s
  induction s with
  | nil => intro _; exact replaceAll_nil pat rep
  | cons c rest ih =>
    intro h
    rw [replaceAll_cons]
    have hnp : ¬ (pat ≠ [] ∧ pat.isPrefixOf (c :: rest)) := by
      rintro ⟨-, hp⟩
      exact h (List.isPrefixOf_iff_prefix.mp hp).isInfix
    rw [if_neg hnp]
    congr 1
    exact ih (fun hi => h (List.infix_cons hi))

/-- The scanner copies a block that lacks the pattern's head character. -/
theorem replaceAll_skip (hd : Char) (pt rep : List Char) :
    ∀ (a s : List Char), hd ∉ a →
      replaceAll (a ++ s) (hd :: pt) rep = a ++ replaceAll s (hd :: pt) rep := by
  intro a
  induction a with
  | nil => intro s _; simp
  | cons c a' ih =>
    intro s hmem
    have hc : c ≠ hd := fun h => hmem (h ▸ List.mem_cons_self c a')
    rw [List.cons_append, replaceAll_cons]
    have hnp : ¬ ((hd :: pt) ≠ [] ∧ (hd :: pt).isPrefixOf (c :: (a' ++ s))) := by
      rintro ⟨-, hp⟩
      simp [List.isPrefixOf] at hp
      exact hc hp.1.symm
    rw [if_neg hnp]
    rw [ih s (fun h => hmem (List.mem_cons_of_mem c h))]
    simp

/-- The scanner consumes the pattern where it occurs and emits the
replacement. -/
theorem replaceAll_head (hd : Char) (pt rep s : List Char) :
    replaceAll ((hd :: pt) ++ s) (hd :: pt) rep =
      rep ++ replaceAll s (hd :: pt) rep := by
  rw [List.cons_append, replaceAll_cons]
  have hp : (hd :: pt) ≠ [] ∧ (hd :: pt).isPrefixOf (hd :: (pt ++ s)) := by
    constructor
    · simp
    · exact List.isPrefixOf_iff_prefix.mpr (List.prefix_append (hd :: pt) s)
  rw [if_pos hp]
  congr 1
  have : ((hd :: (pt ++ s)).drop (hd :: pt).length) = s :=
    List.drop_left (hd :: pt) s
  rw [this]

/-- The scanner steps over an occurrence of a different token that shares
the pattern's head character but does not match the pattern. -/
theorem replaceAll_mismatch (hd : Char) (q pt rep s : List Char)
    (hnp : ¬ (hd :: pt).isPrefixOf ((hd :: q) ++ s)) (hq : hd ∉ q) :
    replaceAll ((hd :: q) ++ s) (hd :: pt) rep =
      (hd :: q) ++ replaceAll s (hd :: pt) rep := by
  rw [List.cons_append, replaceAll_cons]
  have hne : ¬ ((hd :: pt) ≠ [] ∧ (hd :: pt).isPrefixOf (hd :: (q ++ s))) := by
    rintro ⟨-, hp⟩
    exact hnp hp
  rw [if_neg hne]
  rw [replaceAll_skip hd pt rep q s hq]
  simp

/-- A block without the pattern's head character is left unchanged. -/
theorem replaceAll_braceFree (hd : Char) (pt rep a : List Char) (h : hd ∉ a) :
    replaceAll a (hd :: pt) rep = a := by
  have := replaceAll_skip hd pt rep a [] h
  simpa [replaceAll_nil] using this

theorem timeTok_eq : timeTok = lbrace :: 't' :: 'i' :: 'm' :: 'e' :: rbrace :: [] := by
  decide

theorem pctTok_eq :
    pctTok =
      lbrace :: 'p' :: 'e' :: 'r' :: 'c' :: 'e' :: 'n' :: 't' :: 'a' :: 'g' :: 'e' ::
        rbrace :: [] := by
  decide

/-- `"{time}"` never matches at the start of an occurrence of
`"{percentage}"`. -/
theorem timeTok_not_prefix_pct (s : List Char) :
    ¬ timeTok.isPrefixOf (pctTok ++ s) := by
  rw [timeTok_eq, pctTok_eq]
  have hch : ('t' == 'p') = false := by decide
  simp [List.isPrefixOf, hch]

/-! ## Claim theorems -/

/-- C6: event-to-config resolution is a pure total Lean function on each
event enumeration; each of the six WarningLevel variants and each of the
seven State variants (including Unknown) maps to exactly the
corresponding entry of the config sub-tree, with no fallback branch and
no panic (the two `match` expressions are exhaustive by construction). -/
theorem C6_resolver_total :
    ∀ (wc : WarningLevelConfig) (sc : StateConfig),
      resolveWarningLevel wc WarningLevel.Unknown = wc.unknown ∧
      resolveWarningLevel wc WarningLevel.None = wc.none ∧
      resolveWarningLevel wc WarningLevel.Discharging = wc.discharging ∧
      resolveWarningLevel wc WarningLevel.Low = wc.low ∧
      resolveWarningLevel wc WarningLevel.Critical = wc.critical ∧
      resolveWarningLevel wc WarningLevel.Action = wc.action ∧
      resolveState sc State.Unknown = sc.unknown ∧
      resolveState sc State.Charging = sc.charging ∧
      resolveState sc State.Discharging = sc.discharging ∧
      resolveState sc State.Empty = sc.empty ∧
      resolveState sc State.FullyCharged = sc.fully_charged ∧
      resolveState sc State.PendingCharge = sc.pending_charge ∧
      resolveState sc State.PendingDischarge = sc.pending_discharge := by
  intro wc sc
  exact ⟨rfl, rfl, rfl, rfl, rfl, rfl, rfl, rfl, rfl, rfl, rfl, rfl, rfl⟩

/-- C10: the timeout handed to the notification transport is `Never`
exactly when the configured value is 0, and `Milliseconds t` for every
t > 0; no other value encodes a never-expiring notification. -/
theorem C10_timeout_encoding :
    ∀ t : Nat,
      (parse_timeout t = Timeout.Never ↔ t = 0) ∧
      (0 < t → parse_timeout t = Timeout.Milliseconds t) := by
  intro t
  cases t <;> simp [parse_timeout]

/-- Witness for C10 at concrete inputs 0 and 30000. -/
theorem C10_timeout_encoding_witness :
    parse_timeout 0 = Timeout.Never ∧
      parse_timeout 30000 = Timeout.Milliseconds 30000 :=
  ⟨(C10_timeout_encoding 0).1.mpr rfl, (C10_timeout_encoding 30000).2 (by decide)⟩

/-- C3: `format_duration` decomposes every non-negative number of
seconds into whole hours and whole remaining minutes (seconds
truncated), emits the hours clause only if hours > 0 and the minutes
clause only if minutes > 0 (singular exactly at 1), joins clauses with
", " hours-first, yields "0 minutes" when both are zero, and produces
the five exemplary values of the specification. -/
theorem C3_format_duration :
    (∀ s : Nat, format_duration s = formatDurationSpec s) ∧
    format_duration 0 = "0 minutes".data ∧
    format_duration 60 = "1 minute".data ∧
    format_duration 3600 = "1 hour".data ∧
    format_duration 3661 = "1 hour, 1 minute".data ∧
    format_duration 7320 = "2 hours, 2 minutes".data := by
  refine ⟨?_, by decide, by decide, by decide, by decide, by decide⟩
  intro s
  unfold format_duration formatDurationSpec
  by_cases hh : s / 3600 = 0 <;> by_cases hm : (s % 3600) / 60 = 0 <;>
    simp [hh, hm, Nat.pos_iff_ne_zero, joinCommaSpace] <;>
    by_cases h1 : s / 3600 = 1 <;> by_cases m1 : (s % 3600) / 60 = 1 <;>
    simp [h1, m1, joinCommaSpace]

/-- C4 fails as stated: the `time_val as u64` cast in `generate_body` is
a two's-complement reinterpretation, not a saturating conversion, so the
time-to-empty value -1 yields the duration 2^64 - 1 seconds (not zero)
and its rendered placeholder text differs from the rendering for zero. -/
theorem C4_counterexample :
    asU64 (-1) ≠ 0 ∧
    generate_body (-1) "42".data timeTok ≠ generate_body 0 "42".data timeTok := by
  decide

/-- C4 (amended): for every negative time-to-empty value in the i64
range, the duration passed to the Duration Formatter is the
two's-complement wrap 2^64 + v seconds (at least 2^63, never zero); in
particular -1 renders the time placeholder as a huge hour count instead
of the zero rendering "0 minutes". -/
theorem C4_wrapping_cast :
    (∀ v : Int, v < 0 → -(2 ^ 63) ≤ v →
      asU64 v = (2 ^ 64 + v).toNat ∧ 2 ^ 63 ≤ asU64 v) ∧
    generate_body (-1) "42".data timeTok = "5124095576030431 hours".data ∧
    generate_body 0 "42".data timeTok = "0 minutes".data := by
  refine ⟨?_, by decide, by decide⟩
  intro v h1 h2
  unfold asU64
  have e64 : (2 ^ 64 : Int) = 18446744073709551616 := by norm_num
  have e63 : (2 ^ 63 : Int) = 9223372036854775808 := by norm_num
  have e63n : (2 ^ 63 : Nat) = 9223372036854775808 := by norm_num
  rw [e63] at h2
  rw [e64, e63n]
  omega

/-- Witness for the amended C4 at the concrete input -1. -/
theorem C4_wrapping_cast_witness :
    asU64 (-1) = ((2 ^ 64 + (-1) : Int)).toNat ∧ 2 ^ 63 ≤ asU64 (-1) :=
  C4_wrapping_cast.1 (-1) (by decide) (by decide)

/-- The time-token replace pass copies both occurrences of its token and
leaves the rest of the scan to the tail. -/
theorem replace_two_occurrences (hd : Char) (pt rep a b tail : List Char)
    (ha : hd ∉ a) (hb : hd ∉ b) :
    replaceAll (a ++ ((hd :: pt) ++ (b ++ ((hd :: pt) ++ tail)))) (hd :: pt) rep =
      a ++ (rep ++ (b ++ (rep ++ replaceAll tail (hd :: pt) rep))) := by
  rw [replaceAll_skip hd pt rep a _ ha, replaceAll_head, replaceAll_skip hd pt rep b _ hb,
    replaceAll_head]

/-- The time-token replace pass leaves a suffix made of brace-free
blocks and percentage tokens untouched. -/
theorem replace_time_passes_pct (fd c d e : List Char)
    (hc : lbrace ∉ c) (hd' : lbrace ∉ d) (he : lbrace ∉ e) :
    replaceAll (c ++ (pctTok ++ (d ++ (pctTok ++ e)))) timeTok fd =
      c ++ (pctTok ++ (d ++ (pctTok ++ e))) := by
  rw [timeTok_eq]
  rw [replaceAll_skip lbrace _ fd c _ hc]
  congr 1
  rw [pctTok_eq] 
  have hq : lbrace ∉
      ('p' :: 'e' :: 'r' :: 'c' :: 'e' :: 'n' :: 't' :: 'a' :: 'g' :: 'e' ::
        rbrace :: []) := by decide
  rw [replaceAll_mismatch lbrace _ _ fd _
    (by rw [← timeTok_eq, ← pctTok_eq]; exact timeTok_not_prefix_pct _) hq]
  congr 1
  rw [replaceAll_skip lbrace _ fd d _ hd']
  congr 1
  rw [replaceAll_mismatch lbrace _ _ fd _
    (by rw [← timeTok_eq, ← pctTok_eq]; exact timeTok_not_prefix_pct _) hq]
  congr 1
  exact replaceAll_braceFree lbrace _ fd e he

/-- The percentage-token replace pass substitutes both occurrences of
its token and copies every brace-free block, including the two rendered
duration strings inserted by the first pass. -/
theorem replace_pct_pass (pct a fd b c d e : List Char)
    (ha : lbrace ∉ a) (hfd : lbrace ∉ fd) (hb : lbrace ∉ b) (hc : lbrace ∉ c)
    (hd' : lbrace ∉ d) (he : lbrace ∉ e) :
    replaceAll (a ++ (fd ++ (b ++ (fd ++ (c ++ (pctTok ++ (d ++ (pctTok ++ e))))))))
        pctTok pct =
      a ++ (fd ++ (b ++ (fd ++ (c ++ (pct ++ (d ++ (pct ++ e))))))) := by
  rw [pctTok_eq]
  rw [replaceAll_skip lbrace _ pct a _ ha]
  congr 1
  rw [replaceAll_skip lbrace _ pct fd _ hfd]
  congr 1
  rw [replaceAll_skip lbrace _ pct b _ hb]
  congr 1
  rw [replaceAll_skip lbrace _ pct fd _ hfd]
  congr 1
  rw [replaceAll_skip lbrace _ pct c _ hc]
  congr 1
  rw [replaceAll_head]
  congr 1
  rw [replaceAll_skip lbrace _ pct d _ hd']
  congr 1
  rw [replaceAll_head]
  congr 1
  exact replaceAll_braceFree lbrace _ pct e he

/-- C2: each handled event performs its operations in this exact order:
all exec commands are spawned first (unconditionally), then the prior
handle (if any) is closed, and only if the notification is enabled are
the metrics fetched and the new notification shown; when disabled, no
fetch and no show occur. -/
theorem C2_step_order :
    ∀ (ch : Chan) (cfg : EventConfig) (slot : Option Handle) (fresh : Nat)
      (spawnOk : String → Bool),
      ((handleEvent ch cfg slot fresh spawnOk).trace =
        (cfg.exec.commands.map fun c => Act.spawnCmd c (spawnOk c)) ++
        (slot.toList.map fun h => Act.closeHandle ch h) ++
        (if cfg.notification.enable then
          [Act.fetchMetrics, Act.showHandle ch fresh]
         else [])) ∧
      (∀ c ∈ cfg.exec.commands,
        Act.spawnCmd c (spawnOk c) ∈ (handleEvent ch cfg slot fresh spawnOk).trace) ∧
      (cfg.notification.enable = false →
        Act.fetchMetrics ∉ (handleEvent ch cfg slot fresh spawnOk).trace ∧
        ∀ h : Handle,
          Act.showHandle ch h ∉ (handleEvent ch cfg slot fresh spawnOk).trace) := by
  intro ch cfg slot fresh spawnOk
  refine ⟨?_, ?_, ?_⟩
  · cases slot <;> simp [handleEvent]
  · intro c hcmem
    simp [handleEvent]
    exact Or.inl ⟨c, hcmem, rfl, rfl⟩
  · intro hen
    cases slot <;> simp [handleEvent, hen]

/-- Witness for C2 at a concrete disabled config with one command and an
occupied slot. -/
theorem C2_step_order_witness :
    ((handleEvent Chan.warning
        ⟨⟨false, "s", "b", "i", 5, UrgencyConfig.Normal⟩, ⟨["x"]⟩⟩
        (some 3) 7 (fun _ => true)).trace =
      [Act.spawnCmd "x" true, Act.closeHandle Chan.warning 3]) ∧
    Act.spawnCmd "x" true ∈
      (handleEvent Chan.warning
        ⟨⟨false, "s", "b", "i", 5, UrgencyConfig.Normal⟩, ⟨["x"]⟩⟩
        (some 3) 7 (fun _ => true)).trace ∧
    Act.fetchMetrics ∉
      (handleEvent Chan.warning
        ⟨⟨false, "s", "b", "i", 5, UrgencyConfig.Normal⟩, ⟨["x"]⟩⟩
        (some 3) 7 (fun _ => true)).trace := by
  have h := C2_step_order Chan.warning
    ⟨⟨false, "s", "b", "i", 5, UrgencyConfig.Normal⟩, ⟨["x"]⟩⟩
    (some 3) 7 (fun _ => true)
  exact ⟨by rw [h.1]; decide, h.2.1 "x" (by decide), (h.2.2 rfl).1⟩

/-- C7: every command in the resolved config's list is spawned in list
order regardless of which spawns fail (the failure bit affects only the
logged spawn record), and the rest of the handling step — close, fetch,
show and the resulting slot and handle counter — is identical to the
all-spawns-succeed run, so a failed spawn neither stops later commands
nor aborts the step. -/
theorem C7_spawn_isolation :
    ∀ (ch : Chan) (cfg : EventConfig) (slot : Option Handle) (fresh : Nat)
      (spawnOk : String → Bool),
      ((handleEvent ch cfg slot fresh spawnOk).trace.take cfg.exec.commands.length =
        cfg.exec.commands.map fun c => Act.spawnCmd c (spawnOk c)) ∧
      ((handleEvent ch cfg slot fresh spawnOk).trace.drop cfg.exec.commands.length =
        (handleEvent ch cfg slot fresh (fun _ => true)).trace.drop
          cfg.exec.commands.length) ∧
      (handleEvent ch cfg slot fresh spawnOk).slot =
        (handleEvent ch cfg slot fresh (fun _ => true)).slot ∧
      (handleEvent ch cfg slot fresh spawnOk).fresh =
        (handleEvent ch cfg slot fresh (fun _ => true)).fresh := by
  intro ch cfg slot fresh spawnOk
  refine ⟨?_, ?_, rfl, rfl⟩
  · simp only [handleEvent, List.append_assoc]
    rw [List.take_left' (by simp)]
  · simp only [handleEvent, List.append_assoc]
    rw [List.drop_left' (by simp), List.drop_left' (by simp)]

/-- C8: handling an event on one channel neither changes the other
channel's slot nor closes or shows anything tagged with the other
channel, for every pair of channel states and every event. -/
theorem C8_cross_channel :
    ∀ (config : Config) (spawnOk : String → Bool) (st : Channels) (fresh : Nat),
      (∀ w : WarningLevel,
        (stepWarning config spawnOk st fresh w).1.state = st.state ∧
        ∀ h : Handle,
          Act.closeHandle Chan.state h ∉ (stepWarning config spawnOk st fresh w).2.2 ∧
          Act.showHandle Chan.state h ∉ (stepWarning config spawnOk st fresh w).2.2) ∧
      (∀ s : State,
        (stepState config spawnOk st fresh s).1.warning = st.warning ∧
        ∀ h : Handle,
          Act.closeHandle Chan.warning h ∉ (stepState config spawnOk st fresh s).2.2 ∧
          Act.showHandle Chan.warning h ∉ (stepState config spawnOk st fresh s).2.2) := by
  intro config spawnOk st fresh
  constructor
  · intro w
    refine ⟨rfl, fun h => ?_⟩
    cases hslot : st.warning <;>
      cases hen : (resolveWarningLevel config.warning_level w).notification.enable <;>
      simp [stepWarning, handleEvent, hslot, hen]
  · intro s
    refine ⟨rfl, fun h => ?_⟩
    cases hslot : st.state <;>
      cases hen : (resolveState config.state s).notification.enable <;>
      simp [stepState, handleEvent, hslot, hen]

/-- C9: a ctrl-c select outcome stops the loop immediately with the
channel state untouched and a clean exit; events buffered after the
cancellation never influence the run; and when the cancellation arrives
after a cancel-free prefix, the run is exactly the prefix's complete
handling steps (no step is cut short), followed by the clean exit. -/
theorem C9_cancellation :
    (∀ (config : Config) (spawnOk : String → Bool) (post : List SelectMsg)
      (st : Channels) (fresh : Nat),
      runLoop config spawnOk (SelectMsg.ctrlC :: post) st fresh =
        ⟨st, fresh, [], true⟩) ∧
    (∀ (config : Config) (spawnOk : String → Bool) (pre post₁ post₂ : List SelectMsg)
      (st : Channels) (fresh : Nat),
      runLoop config spawnOk (pre ++ SelectMsg.ctrlC :: post₁) st fresh =
        runLoop config spawnOk (pre ++ SelectMsg.ctrlC :: post₂) st fresh) ∧
    (∀ (config : Config) (spawnOk : String → Bool) (pre post : List SelectMsg)
      (st : Channels) (fresh : Nat),
      (runLoop config spawnOk (pre ++ SelectMsg.ctrlC :: post) st fresh).cleanExit =
        true) ∧
    (∀ (config : Config) (spawnOk : String → Bool) (pre post : List SelectMsg)
      (st : Channels) (fresh : Nat), SelectMsg.ctrlC ∉ pre →
      (runLoop config spawnOk (pre ++ SelectMsg.ctrlC :: post) st fresh).channels =
        (runLoop config spawnOk pre st fresh).channels ∧
      (runLoop config spawnOk (pre ++ SelectMsg.ctrlC :: post) st fresh).fresh =
        (runLoop config spawnOk pre st fresh).fresh ∧
      (runLoop config spawnOk (pre ++ SelectMsg.ctrlC :: post) st fresh).trace =
        (runLoop config spawnOk pre st fresh).trace) := by
  refine ⟨fun _ _ _ _ _ => rfl, ?_, ?_, ?_⟩
  · intro config spawnOk pre
    induction pre with
    | nil => intro post₁ post₂ st fresh; rfl
    | cons m rest ih =>
      intro post₁ post₂ st fresh
      cases m <;> simp only [List.cons_append, runLoop, List.append_eq] <;> rw [ih]
  · intro config spawnOk pre
    induction pre with
    | nil => intro post st fresh; rfl
    | cons m rest ih =>
      intro post st fresh
      cases m <;> simp only [List.cons_append, runLoop, List.append_eq] <;> exact ih post _ _
  · intro config spawnOk pre
    induction pre with
    | nil =>
      intro post st fresh _
      exact ⟨rfl, rfl, by simp [runLoop]⟩
    | cons m rest ih =>
      intro post st fresh hnc
      have hm : m ≠ SelectMsg.ctrlC := fun h => hnc (h ▸ List.mem_cons_self m rest)
      have hrest : SelectMsg.ctrlC ∉ rest := fun h => hnc (List.mem_cons_of_mem m h)
      cases m with
      | ctrlC => exact absurd rfl hm
      | warningEv w =>
        simp only [List.cons_append, runLoop, List.append_eq]
        obtain ⟨h1, h2, h3⟩ := ih post _ _ hrest
        exact ⟨h1, h2, by rw [h3]⟩
      | stateEv s =>
        simp only [List.cons_append, runLoop, List.append_eq]
        obtain ⟨h1, h2, h3⟩ := ih post _ _ hrest
        exact ⟨h1, h2, by rw [h3]⟩

/-- Witness for C9: a concrete run whose cancel-free prefix is one
warning event; the buffered state event after ctrl-c changes nothing. -/
theorem C9_cancellation_witness :
    (let ecfg : EventConfig :=
      ⟨⟨true, "s", "b", "i", 5, UrgencyConfig.Normal⟩, ⟨["x"]⟩⟩
     let cfg : Config :=
      ⟨"d", ⟨ecfg, ecfg, ecfg, ecfg, ecfg, ecfg⟩,
        ⟨ecfg, ecfg, ecfg, ecfg, ecfg, ecfg, ecfg⟩⟩
     (runLoop cfg (fun _ => true)
        ([SelectMsg.warningEv WarningLevel.Low] ++ SelectMsg.ctrlC ::
          [SelectMsg.stateEv State.Charging]) ⟨none, none⟩ 0).trace =
       (runLoop cfg (fun _ => true) [SelectMsg.warningEv WarningLevel.Low]
         ⟨none, none⟩ 0).trace) :=
  (C9_cancellation.2.2.2 _ _ _ _ _ _ (by decide)).2.2

theorem optionToList_length (o : Option Handle) : o.toList.length ≤ 1 := by
  cases o <;> simp

theorem boundedFold_nil (ch : Chan) (acc : List Handle) :
    BoundedFold ch acc [] ↔ acc.length ≤ 1 := by
  constructor
  · intro h
    simpa using h 0
  · intro h n
    simpa using h

theorem boundedFold_cons (ch : Chan) (acc : List Handle) (a : Act) (tr : List Act) :
    BoundedFold ch acc (a :: tr) ↔
      acc.length ≤ 1 ∧ BoundedFold ch (applyAct ch acc a) tr := by
  constructor
  · intro h
    refine ⟨by simpa using h 0, fun n => ?_⟩
    simpa using h (n + 1)
  · rintro ⟨h0, h⟩ n
    cases n with
    | zero => simpa using h0
    | succ m => simpa using h m

theorem boundedFold_append (ch : Chan) (acc : List Handle) (t₁ t₂ : List Act) :
    BoundedFold ch acc (t₁ ++ t₂) ↔
      BoundedFold ch acc t₁ ∧
        BoundedFold ch (List.foldl (applyAct ch) acc t₁) t₂ := by
  induction t₁ generalizing acc with
  | nil =>
    simp only [List.nil_append, List.foldl_nil]
    constructor
    · intro h
      exact ⟨(boundedFold_nil ch acc).mpr (by simpa using h 0), h⟩
    · exact And.right
  | cons a t ih =>
    simp only [List.cons_append, boundedFold_cons, List.foldl_cons, ih, and_assoc]

theorem foldl_spawns (ch : Chan) (ok : String → Bool) :
    ∀ (cmds : List String) (acc : List Handle),
      List.foldl (applyAct ch) acc (cmds.map fun c => Act.spawnCmd c (ok c)) = acc := by
  intro cmds
  induction cmds with
  | nil => intro acc; rfl
  | cons c cs ih => intro acc; simpa [applyAct] using ih acc

theorem boundedFold_spawns (ch : Chan) (ok : String → Bool) :
    ∀ (cmds : List String) (acc : List Handle),
      BoundedFold ch acc (cmds.map fun c => Act.spawnCmd c (ok c)) ↔
        acc.length ≤ 1 := by
  intro cmds
  induction cmds with
  | nil => intro acc; simpa using boundedFold_nil ch acc
  | cons c cs ih => intro acc; simp [boundedFold_cons, applyAct, ih]

/-- Folding the open-handle set of the handled channel through one step's
trace turns the previous slot into the new slot, and every intermediate
point holds at most one open handle. -/
theorem handleEvent_fold_same (ch : Chan) (cfg : EventConfig) (slot : Option Handle)
    (fresh : Nat) (spawnOk : String → Bool) :
    List.foldl (applyAct ch) slot.toList (handleEvent ch cfg slot fresh spawnOk).trace =
      (handleEvent ch cfg slot fresh spawnOk).slot.toList ∧
    BoundedFold ch slot.toList (handleEvent ch cfg slot fresh spawnOk).trace := by
  cases slot <;> cases hen : cfg.notification.enable <;>
    simp [handleEvent, hen, boundedFold_append, boundedFold_cons, boundedFold_nil,
      boundedFold_spawns, foldl_spawns, applyAct]

/-- A step on a different channel neither changes the open-handle set of
`ch` nor breaks its bound. -/
theorem handleEvent_fold_other (ch chE : Chan) (cfg : EventConfig)
    (slot : Option Handle) (fresh : Nat) (spawnOk : String → Bool)
    (acc : List Handle) (hne : chE ≠ ch) :
    List.foldl (applyAct ch) acc (handleEvent chE cfg slot fresh spawnOk).trace = acc ∧
    (acc.length ≤ 1 →
      BoundedFold ch acc (handleEvent chE cfg slot fresh spawnOk).trace) := by
  cases slot <;> cases hen : cfg.notification.enable <;>
    simp [handleEvent, hen, boundedFold_append, boundedFold_cons, boundedFold_nil,
      boundedFold_spawns, foldl_spawns, applyAct, hne]

/-- Folding a channel's open-handle set through a whole run maps the
initial slot content to the final slot content, and stays bounded by
one at every prefix. -/
theorem runLoop_fold (config : Config) (spawnOk : String → Bool) :
    ∀ (msgs : List SelectMsg) (st : Channels) (fresh : Nat) (ch : Chan),
      List.foldl (applyAct ch) (chanSlot ch st).toList
          (runLoop config spawnOk msgs st fresh).trace =
        (chanSlot ch (runLoop config spawnOk msgs st fresh).channels).toList ∧
      BoundedFold ch (chanSlot ch st).toList
        (runLoop config spawnOk msgs st fresh).trace := by
  intro msgs
  induction msgs with
  | nil =>
    intro st fresh ch
    exact ⟨rfl, (boundedFold_nil ch _).mpr (optionToList_length _)⟩
  | cons m rest ih =>
    intro st fresh ch
    cases m with
    | ctrlC => exact ⟨rfl, (boundedFold_nil ch _).mpr (optionToList_length _)⟩
    | warningEv w =>
      simp only [runLoop, stepWarning]
      rw [List.foldl_append]
      cases ch with
      | warning =>
        have hs := handleEvent_fold_same Chan.warning
          (resolveWarningLevel config.warning_level w) st.warning fresh spawnOk
        have hrec := ih
          { st with warning := (handleEvent Chan.warning
              (resolveWarningLevel config.warning_level w) st.warning fresh spawnOk).slot }
          (handleEvent Chan.warning (resolveWarningLevel config.warning_level w)
            st.warning fresh spawnOk).fresh Chan.warning
        constructor
        · rw [show chanSlot Chan.warning st = st.warning from rfl, hs.1]
          exact hrec.1
        · rw [boundedFold_append]
          refine ⟨hs.2, ?_⟩
          rw [show chanSlot Chan.warning st = st.warning from rfl, hs.1]
          exact hrec.2
      | state =>
        have ho := handleEvent_fold_other Chan.state Chan.warning
          (resolveWarningLevel config.warning_level w) st.warning fresh spawnOk
          (chanSlot Chan.state st).toList (by decide)
        have hrec := ih
          { st with warning := (handleEvent Chan.warning
              (resolveWarningLevel config.warning_level w) st.warning fresh spawnOk).slot }
          (handleEvent Chan.warning (resolveWarningLevel config.warning_level w)
            st.warning fresh spawnOk).fresh Chan.state
        constructor
        · rw [ho.1]
          exact hrec.1
        · rw [boundedFold_append]
          exact ⟨ho.2 (optionToList_length _), by rw [ho.1]; exact hrec.2⟩
    | stateEv s =>
      simp only [runLoop, stepState]
      rw [List.foldl_append]
      cases ch with
      | state =>
        have hs := handleEvent_fold_same Chan.state
          (resolveState config.state s) st.state fresh spawnOk
        have hrec := ih
          { st with state := (handleEvent Chan.state
              (resolveState config.state s) st.state fresh spawnOk).slot }
          (handleEvent Chan.state (resolveState config.state s)
            st.state fresh spawnOk).fresh Chan.state
        constructor
        · rw [show chanSlot Chan.state st = st.state from rfl, hs.1]
          exact hrec.1
        · rw [boundedFold_append]
          refine ⟨hs.2, ?_⟩
          rw [show chanSlot Chan.state st = st.state from rfl, hs.1]
          exact hrec.2
      | warning =>
        have ho := handleEvent_fold_other Chan.warning Chan.state
          (resolveState config.state s) st.state fresh spawnOk
          (chanSlot Chan.warning st).toList (by decide)
        have hrec := ih
          { st with state := (handleEvent Chan.state
              (resolveState config.state s) st.state fresh spawnOk).slot }
          (handleEvent Chan.state (resolveState config.state s)
            st.state fresh spawnOk).fresh Chan.warning
        constructor
        · rw [ho.1]
          exact hrec.1
        · rw [boundedFold_append]
          exact ⟨ho.2 (optionToList_length _), by rw [ho.1]; exact hrec.2⟩

/-- C1: on every handled event the channel's previous handle, if any, is
closed and the slot cleared — also when the resolved notification is
disabled — and the close comes before any show; consequently, at every
point of any run every channel holds at most one open notification
handle. -/
theorem C1_single_handle :
    (∀ (ch : Chan) (cfg : EventConfig) (h : Handle) (fresh : Nat)
      (spawnOk : String → Bool),
      Act.closeHandle ch h ∈ (handleEvent ch cfg (some h) fresh spawnOk).trace) ∧
    (∀ (ch : Chan) (cfg : EventConfig) (h : Handle) (fresh : Nat)
      (spawnOk : String → Bool),
      cfg.notification.enable = false →
        (handleEvent ch cfg (some h) fresh spawnOk).slot = none ∧
        ∀ h₂ : Handle,
          Act.showHandle ch h₂ ∉ (handleEvent ch cfg (some h) fresh spawnOk).trace) ∧
    (∀ (ch : Chan) (cfg : EventConfig) (h : Handle) (fresh : Nat)
      (spawnOk : String → Bool) (n : Nat) (h₂ : Handle),
      Act.showHandle ch h₂ ∈ (handleEvent ch cfg (some h) fresh spawnOk).trace.take n →
      Act.closeHandle ch h ∈ (handleEvent ch cfg (some h) fresh spawnOk).trace.take n) ∧
    (∀ (config : Config) (spawnOk : String → Bool) (msgs : List SelectMsg)
      (ch : Chan) (n : Nat),
      (openAfter ch ((runLoop config spawnOk msgs ⟨none, none⟩ 0).trace.take n)).length
        ≤ 1) := by
  refine ⟨?_, ?_, ?_, ?_⟩
  · intro ch cfg h fresh spawnOk
    simp [handleEvent]
  · intro ch cfg h fresh spawnOk hen
    constructor
    · simp [handleEvent, hen]
    · intro h₂
      simp [handleEvent, hen]
  · intro ch cfg h fresh spawnOk n h₂ hmem
    have htr : (handleEvent ch cfg (some h) fresh spawnOk).trace =
        ((cfg.exec.commands.map fun c => Act.spawnCmd c (spawnOk c)) ++
          [Act.closeHandle ch h]) ++
        (if cfg.notification.enable then
          [Act.fetchMetrics, Act.showHandle ch fresh]
         else []) := rfl
    rw [htr] at hmem ⊢
    rw [List.take_append_eq_append_take] at hmem ⊢
    rcases List.mem_append.mp hmem with hin | hin
    · exfalso
      have := List.mem_of_mem_take hin
      simp at this
    · have hne : n -
          ((cfg.exec.commands.map fun c => Act.spawnCmd c (spawnOk c)) ++
            [Act.closeHandle ch h]).length ≠ 0 := by
        intro h0
        rw [h0] at hin
        simp at hin
      refine List.mem_append.mpr (Or.inl ?_)
      rw [List.take_of_length_le (by omega)]
      simp
  · intro config spawnOk msgs ch n
    have hb := (runLoop_fold config spawnOk msgs ⟨none, none⟩ 0 ch).2
    have h0 : (chanSlot ch (⟨none, none⟩ : Channels)).toList = ([] : List Handle) := by
      cases ch <;> rfl
    have := hb n
    rw [h0] at this
    exact this

/-- Witness for C1: a disabled config clears an occupied slot without
showing, and with an enabled config the close action is already inside
the three-action prefix that contains the show. -/
theorem C1_single_handle_witness :
    ((handleEvent Chan.warning
        ⟨⟨false, "s", "b", "i", 5, UrgencyConfig.Normal⟩, ⟨[]⟩⟩
        (some 4) 9 (fun _ => true)).slot = none ∧
      ∀ h₂ : Handle,
        Act.showHandle Chan.warning h₂ ∉
          (handleEvent Chan.warning
            ⟨⟨false, "s", "b", "i", 5, UrgencyConfig.Normal⟩, ⟨[]⟩⟩
            (some 4) 9 (fun _ => true)).trace) ∧
    Act.closeHandle Chan.warning 4 ∈
      (handleEvent Chan.warning
        ⟨⟨true, "s", "b", "i", 5, UrgencyConfig.Normal⟩, ⟨[]⟩⟩
        (some 4) 9 (fun _ => true)).trace.take 3 :=
  ⟨C1_single_handle.2.1 Chan.warning
      ⟨⟨false, "s", "b", "i", 5, UrgencyConfig.Normal⟩, ⟨[]⟩⟩ 4 9 (fun _ => true) rfl,
   C1_single_handle.2.2.1 Chan.warning
      ⟨⟨true, "s", "b", "i", 5, UrgencyConfig.Normal⟩, ⟨[]⟩⟩ 4 9 (fun _ => true) 3 9
      (by decide)⟩

/-! ## Equivalence of the sequential replaces with the spec renderer -/

theorem renderSpecAux_nil (fd pct : List Char) (fuel : Nat) :
    renderSpecAux fd pct fuel [] = [] := by
  cases fuel <;> simp [renderSpecAux]

theorem renderSpecAux_irrel (fd pct : List Char) :
    ∀ (f₁ : Nat) (s : List Char) (f₂ : Nat), s.length ≤ f₁ → s.length ≤ f₂ →
      renderSpecAux fd pct f₁ s = renderSpecAux fd pct f₂ s := by
  intro f₁
  induction f₁ with
  | zero =>
    intro s f₂ h₁ _
    have : s = [] := List.eq_nil_of_length_eq_zero (Nat.le_zero.mp h₁)
    subst this
    simp [renderSpecAux_nil]
  | succ f ih =>
    intro s f₂ h₁ h₂
    match s with
    | [] => simp [renderSpecAux_nil]
    | c :: rest =>
      match f₂ with
      | 0 => simp at h₂
      | g + 1 =>
        simp only [renderSpecAux]
        have hT : 1 ≤ timeTok.length := by decide
        have hP : 1 ≤ pctTok.length := by decide
        by_cases hc1 : timeTok.isPrefixOf (c :: rest)
        · simp only [if_pos hc1]
          congr 1
          have hlen : ((c :: rest).drop timeTok.length).length ≤ rest.length := by
            simp only [List.length_drop, List.length_cons]
            omega
          exact ih _ g (le_trans hlen (by simp at h₁; omega))
            (le_trans hlen (by simp at h₂; omega))
        · simp only [if_neg hc1]
          by_cases hc2 : pctTok.isPrefixOf (c :: rest)
          · simp only [if_pos hc2]
            congr 1
            have hlen : ((c :: rest).drop pctTok.length).length ≤ rest.length := by
              simp only [List.length_drop, List.length_cons]
              omega
            exact ih _ g (le_trans hlen (by simp at h₁; omega))
              (le_trans hlen (by simp at h₂; omega))
          · simp only [if_neg hc2]
            congr 1
            exact ih rest g (by simp at h₁; omega) (by simp at h₂; omega)

theorem renderSpec_nil (fd pct : List Char) : renderSpec fd pct [] = [] := rfl

theorem renderSpec_cons (fd pct : List Char) (c : Char) (rest : List Char) :
    renderSpec fd pct (c :: rest) =
      if timeTok.isPrefixOf (c :: rest) then
        fd ++ renderSpec fd pct ((c :: rest).drop timeTok.length)
      else if pctTok.isPrefixOf (c :: rest) then
        pct ++ renderSpec fd pct ((c :: rest).drop pctTok.length)
      else c :: renderSpec fd pct rest := by
  show renderSpecAux fd pct (rest.length + 1) (c :: rest) = _
  simp only [renderSpecAux]
  have hT : 1 ≤ timeTok.length := by decide
  have hP : 1 ≤ pctTok.length := by decide
  by_cases hc1 : timeTok.isPrefixOf (c :: rest)
  · simp only [if_pos hc1]
    congr 1
    apply renderSpecAux_irrel
    · simp only [List.length_drop, List.length_cons]
      omega
    · exact le_rfl
  · simp only [if_neg hc1]
    by_cases hc2 : pctTok.isPrefixOf (c :: rest)
    · simp only [if_pos hc2]
      congr 1
      apply renderSpecAux_irrel
      · simp only [List.length_drop, List.length_cons]
        omega
      · exact le_rfl
    · simp only [if_neg hc2]
      rfl

theorem renderSpec_head_time (fd pct w : List Char) :
    renderSpec fd pct (timeTok ++ w) = fd ++ renderSpec fd pct w := by
  have h1 : timeTok ++ w =
      lbrace :: (('t' :: 'i' :: 'm' :: 'e' :: rbrace :: []) ++ w) := by
    rw [timeTok_eq]
    rfl
  rw [h1, renderSpec_cons]
  have hpre : timeTok.isPrefixOf
      (lbrace :: (('t' :: 'i' :: 'm' :: 'e' :: rbrace :: []) ++ w)) := by
    rw [← List.cons_append, ← timeTok_eq]
    exact List.isPrefixOf_iff_prefix.mpr (List.prefix_append timeTok w)
  rw [if_pos hpre]
  congr 1

theorem renderSpec_head_pct (fd pct w : List Char) :
    renderSpec fd pct (pctTok ++ w) = pct ++ renderSpec fd pct w := by
  have h1 : pctTok ++ w =
      lbrace :: (('p' :: 'e' :: 'r' :: 'c' :: 'e' :: 'n' :: 't' :: 'a' :: 'g' ::
        'e' :: rbrace :: []) ++ w) := by
    rw [pctTok_eq]
    rfl
  rw [h1, renderSpec_cons]
  have hT : ¬ timeTok.isPrefixOf
      (lbrace :: (('p' :: 'e' :: 'r' :: 'c' :: 'e' :: 'n' :: 't' :: 'a' :: 'g' ::
        'e' :: rbrace :: []) ++ w)) := by
    rw [← List.cons_append, ← pctTok_eq]
    exact timeTok_not_prefix_pct w
  rw [if_neg hT]
  have hpre : pctTok.isPrefixOf
      (lbrace :: (('p' :: 'e' :: 'r' :: 'c' :: 'e' :: 'n' :: 't' :: 'a' :: 'g' ::
        'e' :: rbrace :: []) ++ w)) := by
    rw [← List.cons_append, ← pctTok_eq]
    exact List.isPrefixOf_iff_prefix.mpr (List.prefix_append pctTok w)
  rw [if_pos hpre]
  congr 1

theorem renderSpec_cons_other (fd pct : List Char) (c : Char) (w : List Char)
    (h1 : ¬ timeTok.isPrefixOf (c :: w)) (h2 : ¬ pctTok.isPrefixOf (c :: w)) :
    renderSpec fd pct (c :: w) = c :: renderSpec fd pct w := by
  rw [renderSpec_cons, if_neg h1, if_neg h2]

theorem toDigitsCore_head :
    ∀ (fuel n : Nat) (ds : List Char), 1 ≤ fuel →
      ∃ c cs, Nat.toDigitsCore 10 fuel n ds = c :: cs ∧ c ∈ "0123456789".data := by
  intro fuel
  induction fuel with
  | zero => intro n ds h; omega
  | succ f ih =>
    intro n ds _
    have hdig : ∀ m, m < 10 → Nat.digitChar m ∈ "0123456789".data := by decide
    simp only [Nat.toDigitsCore]
    by_cases h : n / 10 = 0
    · simp only [h, if_pos rfl]
      exact ⟨_, _, rfl, hdig _ (Nat.mod_lt _ (by norm_num))⟩
    · simp only [if_neg h]
      cases f with
      | zero =>
        simp only [Nat.toDigitsCore]
        exact ⟨_, _, rfl, hdig _ (Nat.mod_lt _ (by norm_num))⟩
      | succ f2 => exact ih _ _ (by omega)

theorem toDigitsCore_mem :
    ∀ (fuel n : Nat) (ds : List Char) (c : Char),
      c ∈ Nat.toDigitsCore 10 fuel n ds → c ∈ ds ∨ c ∈ "0123456789".data := by
  intro fuel
  induction fuel with
  | zero => intro n ds c h; exact Or.inl h
  | succ f ih =>
    intro n ds c h
    have hdig : ∀ m, m < 10 → Nat.digitChar m ∈ "0123456789".data := by decide
    simp only [Nat.toDigitsCore] at h
    by_cases hz : n / 10 = 0
    · rw [if_pos hz] at h
      rcases List.mem_cons.mp h with h | h
      · exact Or.inr (h ▸ hdig _ (Nat.mod_lt _ (by norm_num)))
      · exact Or.inl h
    · rw [if_neg hz] at h
      rcases ih _ _ _ h with h | h
      · rcases List.mem_cons.mp h with h | h
        · exact Or.inr (h ▸ hdig _ (Nat.mod_lt _ (by norm_num)))
        · exact Or.inl h
      · exact Or.inr h

theorem repr_head (n : Nat) :
    ∃ c cs, (Nat.repr n).data = c :: cs ∧ c ∈ "0123456789".data :=
  toDigitsCore_head (n + 1) n [] (by omega)

theorem repr_mem (n : Nat) (c : Char) (h : c ∈ (Nat.repr n).data) :
    c ∈ "0123456789".data := by
  rcases toDigitsCore_mem (n + 1) n [] c h with h | h
  · simp at h
  · exact h

theorem joinCommaSpace_mem :
    ∀ (parts : List (List Char)) (c : Char), c ∈ joinCommaSpace parts →
      (∃ p ∈ parts, c ∈ p) ∨ c ∈ ", ".data := by
  intro parts
  induction parts with
  | nil => intro c h; simp [joinCommaSpace] at h
  | cons x xs ih =>
    intro c h
    cases xs with
    | nil =>
      simp only [joinCommaSpace] at h
      exact Or.inl ⟨x, by simp, h⟩
    | cons y ys =>
      simp only [joinCommaSpace] at h
      rcases List.mem_append.mp h with h | h
      · rcases List.mem_append.mp h with h | h
        · exact Or.inl ⟨x, by simp, h⟩
        · exact Or.inr h
      · rcases ih c h with ⟨p, hp, hcp⟩ | h
        · exact Or.inl ⟨p, List.mem_cons_of_mem _ hp, hcp⟩
        · exact Or.inr h

theorem format_duration_mem (n : Nat) (c : Char)
    (h : c ∈ format_duration n) : c ∈ "0123456789 hourminutes,".data := by
  have hdigs : ∀ x, x ∈ "0123456789".data → x ∈ "0123456789 hourminutes,".data := by
    decide
  have hcomma : ∀ x, x ∈ ", ".data → x ∈ "0123456789 hourminutes,".data := by decide
  have hsp : ∀ x, x ∈ " ".data → x ∈ "0123456789 hourminutes,".data := by decide
  have hh4 : ∀ x, x ∈ "hour".data → x ∈ "0123456789 hourminutes,".data := by decide
  have hh5 : ∀ x, x ∈ "hours".data → x ∈ "0123456789 hourminutes,".data := by decide
  have hm6 : ∀ x, x ∈ "minute".data → x ∈ "0123456789 hourminutes,".data := by decide
  have hm7 : ∀ x, x ∈ "minutes".data → x ∈ "0123456789 hourminutes,".data := by decide
  have h0 : ∀ x, x ∈ "0 minutes".data → x ∈ "0123456789 hourminutes,".data := by
    decide
  have hclause : ∀ (k : Nat) (w1 w2 : List Char),
      (∀ x, x ∈ w1 → x ∈ "0123456789 hourminutes,".data) →
      (∀ x, x ∈ w2 → x ∈ "0123456789 hourminutes,".data) →
      c ∈ (Nat.repr k).data ++ " ".data ++ (if k = 1 then w1 else w2) →
      c ∈ "0123456789 hourminutes,".data := by
    intro k w1 w2 hw1 hw2 hk
    rcases List.mem_append.mp hk with h2 | h2
    · rcases List.mem_append.mp h2 with h3 | h3
      · exact hdigs c (repr_mem _ c h3)
      · exact hsp c h3
    · by_cases h1 : k = 1
      · rw [if_pos h1] at h2
        exact hw1 c h2
      · rw [if_neg h1] at h2
        exact hw2 c h2
  have hparts : ∀ p,
      p ∈ (if 0 < n / 3600 then
            [(Nat.repr (n / 3600)).data ++ " ".data ++
              (if n / 3600 = 1 then "hour".data else "hours".data)]
           else []) ++
          (if 0 < (n % 3600) / 60 then
            [(Nat.repr ((n % 3600) / 60)).data ++ " ".data ++
              (if (n % 3600) / 60 = 1 then "minute".data else "minutes".data)]
           else []) →
      p = (Nat.repr (n / 3600)).data ++ " ".data ++
            (if n / 3600 = 1 then "hour".data else "hours".data) ∨
      p = (Nat.repr ((n % 3600) / 60)).data ++ " ".data ++
            (if (n % 3600) / 60 = 1 then "minute".data else "minutes".data) := by
    intro p hp
    rcases List.mem_append.mp hp with h2 | h2
    · left
      by_cases hh : 0 < n / 3600
      · rw [if_pos hh] at h2
        simpa using h2
      · rw [if_neg hh] at h2
        simp at h2
    · right
      by_cases hm : 0 < (n % 3600) / 60
      · rw [if_pos hm] at h2
        simpa using h2
      · rw [if_neg hm] at h2
        simp at h2
  simp only [format_duration] at h
  by_cases hE : (List.isEmpty ((if 0 < n / 3600 then
        [(Nat.repr (n / 3600)).data ++ " ".data ++
          (if n / 3600 = 1 then "hour".data else "hours".data)]
       else []) ++
      (if 0 < (n % 3600) / 60 then
        [(Nat.repr ((n % 3600) / 60)).data ++ " ".data ++
          (if (n % 3600) / 60 = 1 then "minute".data else "minutes".data)]
       else []))) = true
  · rw [if_pos hE] at h
    simp only [joinCommaSpace] at h
    exact h0 c h
  · rw [if_neg hE] at h
    rcases joinCommaSpace_mem _ c h with ⟨p, hp, hcp⟩ | hc2
    · rcases hparts p hp with rfl | rfl
      · exact hclause (n / 3600) _ _ hh4 hh5 hcp
      · exact hclause ((n % 3600) / 60) _ _ hm6 hm7 hcp
    · exact hcomma c hc2

theorem format_duration_head (n : Nat) :
    ∃ c cs, format_duration n = c :: cs ∧ c ∈ "0123456789".data := by
  by_cases hh : 0 < n / 3600
  · obtain ⟨c, cs, hc, hcd⟩ := repr_head (n / 3600)
    refine ⟨c, ?_⟩
    by_cases hm : 0 < (n % 3600) / 60
    · have e1 : format_duration n =
          (Nat.repr (n / 3600)).data ++
            (" ".data ++ ((if n / 3600 = 1 then "hour".data else "hours".data) ++
              (", ".data ++
                ((Nat.repr ((n % 3600) / 60)).data ++ (" ".data ++
                  (if (n % 3600) / 60 = 1 then "minute".data
                   else "minutes".data)))))) := by
        simp [format_duration, hh, hm, joinCommaSpace, List.append_assoc]
      rw [e1, hc, List.cons_append]
      exact ⟨_, rfl, hcd⟩
    · have e1 : format_duration n =
          (Nat.repr (n / 3600)).data ++
            (" ".data ++ (if n / 3600 = 1 then "hour".data else "hours".data)) := by
        simp [format_duration, hh, hm, joinCommaSpace, List.append_assoc]
      rw [e1, hc, List.cons_append]
      exact ⟨_, rfl, hcd⟩
  · by_cases hm : 0 < (n % 3600) / 60
    · obtain ⟨c, cs, hc, hcd⟩ := repr_head ((n % 3600) / 60)
      have e1 : format_duration n =
          (Nat.repr ((n % 3600) / 60)).data ++
            (" ".data ++
              (if (n % 3600) / 60 = 1 then "minute".data else "minutes".data)) := by
        simp [format_duration, hh, hm, joinCommaSpace, List.append_assoc]
      exact ⟨c, _, by rw [e1, hc, List.cons_append], hcd⟩
    · have e1 : format_duration n = "0 minutes".data := by
        simp [format_duration, hh, hm, joinCommaSpace]
      exact ⟨'0', " minutes".data, by rw [e1], by decide⟩

theorem format_duration_no_lbrace (n : Nat) : lbrace ∉ format_duration n := by
  intro h
  have := format_duration_mem n lbrace h
  exact absurd this (by decide)

theorem format_duration_ne_nil (n : Nat) : format_duration n ≠ [] := by
  obtain ⟨c, cs, hc, -⟩ := format_duration_head n
  simp [hc]

theorem format_duration_head_not_pct (n : Nat) (c : Char)
    (h : (format_duration n).head? = some c) : c ∉ pctTok := by
  obtain ⟨c2, cs, hc, hcd⟩ := format_duration_head n
  rw [hc] at h
  simp at h
  subst h
  have hdisj : ∀ x, x ∈ "0123456789".data → x ∉ pctTok := by decide
  exact hdisj c2 hcd

/-- If some pattern-free text `q` (no brace, not starting with the head
character of `fd`) is a prefix of the time-replaced string, it was
already a prefix of the original: the inserted duration text can never
complete such a prefix. -/
theorem prefix_of_replaceAll (fd : List Char) :
    ∀ (u q : List Char), q ≠ [] → lbrace ∉ q →
      (∀ c, fd.head? = some c → c ∉ q) → fd ≠ [] →
      q.isPrefixOf (replaceAll u timeTok fd) → q.isPrefixOf u := by
  intro u
  induction u with
  | nil =>
    intro q hq _ _ _ hpre
    rw [replaceAll_nil] at hpre
    cases q with
    | nil => exact absurd rfl hq
    | cons a as => simp [List.isPrefixOf] at hpre
  | cons a w ih =>
    intro q hq hbq hhq hfd hpre
    by_cases hT : timeTok.isPrefixOf (a :: w)
    · obtain ⟨w2, hw2⟩ := List.isPrefixOf_iff_prefix.mp hT
      rw [← hw2] at hpre
      have hrw : replaceAll (timeTok ++ w2) timeTok fd =
          fd ++ replaceAll w2 timeTok fd := by
        rw [timeTok_eq]
        exact replaceAll_head lbrace _ fd w2
      rw [hrw] at hpre
      cases q with
      | nil => exact absurd rfl hq
      | cons q0 q2 =>
        cases fd with
        | nil => exact absurd rfl hfd
        | cons c0 fd2 =>
          rw [List.cons_append] at hpre
          simp [List.isPrefixOf] at hpre
          have : c0 ∈ q0 :: q2 := by
            rw [hpre.1]
            exact List.mem_cons_self _ _
          exact absurd this (hhq c0 rfl)
    · have hrw : replaceAll (a :: w) timeTok fd = a :: replaceAll w timeTok fd := by
        rw [replaceAll_cons]
        rw [if_neg (by rintro ⟨-, hp⟩; exact hT hp)]
      rw [hrw] at hpre
      cases q with
      | nil => exact absurd rfl hq
      | cons q0 q2 =>
        simp [List.isPrefixOf] at hpre
        obtain ⟨hq0, hq2⟩ := hpre
        by_cases hq2nil : q2 = []
        · subst hq2nil
          subst hq0
          simp [List.isPrefixOf]
        · have hrec := ih q2 hq2nil (fun h => hbq (List.mem_cons_of_mem _ h))
            (fun c hc h => hhq c hc (List.mem_cons_of_mem _ h)) hfd
            (List.isPrefixOf_iff_prefix.mpr hq2)
          subst hq0
          simp [List.isPrefixOf, hrec]

/-- The two sequential replaces of `generate_body` agree with the
specification's one-pass renderer on every template, provided the
inserted duration text is nonempty, brace-free, and starts with a
character outside the percentage token (all facts of
`format_duration`'s output). -/
theorem replace_seq_eq_renderSpec (fd pct : List Char) (hbr : lbrace ∉ fd)
    (hne : fd ≠ []) (hhd : ∀ c, fd.head? = some c → c ∉ pctTok) :
    ∀ (N : Nat) (u : List Char), u.length ≤ N →
      replaceAll (replaceAll u timeTok fd) pctTok pct = renderSpec fd pct u := by
  intro N
  induction N with
  | zero =>
    intro u hu
    have : u = [] := List.eq_nil_of_length_eq_zero (Nat.le_zero.mp hu)
    subst this
    simp [replaceAll_nil, renderSpec_nil]
  | succ N ih =>
    intro u hu
    cases u with
    | nil => simp [replaceAll_nil, renderSpec_nil]
    | cons a w =>
      by_cases hT : timeTok.isPrefixOf (a :: w)
      · obtain ⟨w2, hw2⟩ := List.isPrefixOf_iff_prefix.mp hT
        rw [← hw2]
        have h1 : replaceAll (timeTok ++ w2) timeTok fd =
            fd ++ replaceAll w2 timeTok fd := by
          rw [timeTok_eq]
          exact replaceAll_head lbrace _ fd w2
        have h2 : replaceAll (fd ++ replaceAll w2 timeTok fd) pctTok pct =
            fd ++ replaceAll (replaceAll w2 timeTok fd) pctTok pct := by
          rw [pctTok_eq]
          exact replaceAll_skip lbrace _ pct fd _ hbr
        rw [h1, h2, renderSpec_head_time]
        congr 1
        apply ih
        have hlen := congrArg List.length hw2
        rw [timeTok_eq] at hlen
        simp at hlen
        simp at hu
        omega
      · by_cases hP : pctTok.isPrefixOf (a :: w)
        · obtain ⟨w2, hw2⟩ := List.isPrefixOf_iff_prefix.mp hP
          rw [← hw2]
          have h1 : replaceAll (pctTok ++ w2) timeTok fd =
              pctTok ++ replaceAll w2 timeTok fd := by
            rw [timeTok_eq, pctTok_eq]
            exact replaceAll_mismatch lbrace _ _ fd _
              (by rw [← timeTok_eq, ← pctTok_eq]; exact timeTok_not_prefix_pct w2)
              (by decide)
          have h2 : replaceAll (pctTok ++ replaceAll w2 timeTok fd) pctTok pct =
              pct ++ replaceAll (replaceAll w2 timeTok fd) pctTok pct := by
            rw [pctTok_eq]
            exact replaceAll_head lbrace _ pct _
          rw [h1, h2, renderSpec_head_pct]
          congr 1
          apply ih
          have hlen := congrArg List.length hw2
          rw [pctTok_eq] at hlen
          simp at hlen
          simp at hu
          omega
        · have h1 : replaceAll (a :: w) timeTok fd =
              a :: replaceAll w timeTok fd := by
            rw [replaceAll_cons]
            rw [if_neg (by rintro ⟨-, hp⟩; exact hT hp)]
          rw [h1]
          have hnp : ¬ pctTok.isPrefixOf (a :: replaceAll w timeTok fd) := by
            intro hcon
            rw [pctTok_eq] at hcon
            simp [List.isPrefixOf] at hcon
            obtain ⟨ha, hq⟩ := hcon
            have hsub : ∀ x, x ∈ ('p' :: 'e' :: 'r' :: 'c' :: 'e' :: 'n' :: 't' ::
                'a' :: 'g' :: 'e' :: rbrace :: []) → x ∈ pctTok := by decide
            have hqpre := prefix_of_replaceAll fd w
              ('p' :: 'e' :: 'r' :: 'c' :: 'e' :: 'n' :: 't' :: 'a' :: 'g' :: 'e' ::
                rbrace :: [])
              (by decide) (by decide)
              (fun c hc hmem => hhd c hc (hsub c hmem)) hne
              (List.isPrefixOf_iff_prefix.mpr hq)
            apply hP
            rw [pctTok_eq]
            subst ha
            simp [List.isPrefixOf]
            exact List.isPrefixOf_iff_prefix.mp hqpre
          have h2 : replaceAll (a :: replaceAll w timeTok fd) pctTok pct =
              a :: replaceAll (replaceAll w timeTok fd) pctTok pct := by
            rw [replaceAll_cons]
            rw [if_neg (by rintro ⟨-, hp⟩; exact hnp hp)]
          rw [h2, renderSpec_cons_other fd pct a w hT hP]
          congr 1
          apply ih w
          simp at hu
          omega

set_option maxRecDepth 8192 in
/-- C5: for every template string and every metrics snapshot, rendering
the notification body equals the specification's one-pass renderer:
every occurrence of the literal time token is replaced by the
Duration-Formatter text, every occurrence of the literal percentage
token by the percentage text, all repeated occurrences receive the
identical value, any other text — including unknown brace placeholders —
is copied verbatim, and a template containing neither token is returned
unchanged; concrete instances include the default config body and a
percentage-before-time template. -/
theorem C5_template_render :
    (∀ (tv : Int) (pct template : List Char),
      generate_body tv pct template =
        renderSpec (format_duration (asU64 tv)) pct template) ∧
    (∀ (tv : Int) (pct s : List Char),
      ¬ timeTok <:+: s → ¬ pctTok <:+: s → generate_body tv pct s = s) ∧
    (∀ (tv : Int) (pct a b c d e : List Char),
      lbrace ∉ a → lbrace ∉ b → lbrace ∉ c → lbrace ∉ d → lbrace ∉ e →
      lbrace ∉ format_duration (asU64 tv) → lbrace ∉ pct →
      generate_body tv pct
          (a ++ timeTok ++ b ++ timeTok ++ c ++ pctTok ++ d ++ pctTok ++ e) =
        a ++ format_duration (asU64 tv) ++ b ++ format_duration (asU64 tv) ++
          c ++ pct ++ d ++ pct ++ e) ∧
    generate_body 3661 "42.5".data
        "Approximately <b>\x7btime\x7d</b> remaining (\x7bpercentage\x7d%)".data =
      "Approximately <b>1 hour, 1 minute</b> remaining (42.5%)".data ∧
    generate_body 3661 "42.5".data
        "\x7bpercentage\x7d% left, \x7btime\x7d".data =
      "42.5% left, 1 hour, 1 minute".data ∧
    generate_body 3661 "42.5".data
        "\x7btime\x7d / \x7bpercentage\x7d% (\x7bfoo\x7d) \x7btime\x7d".data =
      "1 hour, 1 minute / 42.5% (\x7bfoo\x7d) 1 hour, 1 minute".data := by
  refine ⟨?_, ?_, ?_, by decide, by decide, by decide⟩
  · intro tv pct template
    show replaceAll
        (replaceAll template timeTok (format_duration (asU64 tv))) pctTok pct = _
    exact replace_seq_eq_renderSpec (format_duration (asU64 tv)) pct
      (format_duration_no_lbrace _) (format_duration_ne_nil _)
      (format_duration_head_not_pct _) template.length template le_rfl
  · intro tv pct s hT hP
    show replaceAll (replaceAll s timeTok (format_duration (asU64 tv))) pctTok pct = s
    rw [replaceAll_of_absent timeTok _ s hT, replaceAll_of_absent pctTok pct s hP]
  · intro tv pct a b c d e ha hb hc hd' he hfd hp
    show replaceAll
        (replaceAll (a ++ timeTok ++ b ++ timeTok ++ c ++ pctTok ++ d ++ pctTok ++ e)
          timeTok (format_duration (asU64 tv)))
        pctTok pct = _
    have step1 :
        replaceAll
            (a ++ (timeTok ++ (b ++ (timeTok ++ (c ++ (pctTok ++ (d ++ (pctTok ++ e))))))))
            timeTok (format_duration (asU64 tv)) =
          a ++ (format_duration (asU64 tv) ++ (b ++ (format_duration (asU64 tv) ++
            (c ++ (pctTok ++ (d ++ (pctTok ++ e))))))) := by
      rw [timeTok_eq]
      rw [replace_two_occurrences lbrace _ _ a b _ ha hb]
      rw [← timeTok_eq]
      rw [replace_time_passes_pct _ c d e hc hd' he]
    simp only [List.append_assoc]
    rw [step1]
    rw [replace_pct_pass pct a _ b c d e ha hfd hb hc hd' he]

/-- Witness for C5 at concrete inputs: a token-free template is returned
unchanged, and a template with two occurrences of each token is fully
substituted. -/
theorem C5_template_render_witness :
    generate_body 0 "1".data "abc".data = "abc".data ∧
    generate_body 60 "9".data
        ("A ".data ++ timeTok ++ " B ".data ++ timeTok ++ " C ".data ++ pctTok ++
          " D ".data ++ pctTok ++ " E".data) =
      "A ".data ++ format_duration (asU64 60) ++ " B ".data ++
        format_duration (asU64 60) ++ " C ".data ++ "9".data ++ " D ".data ++
        "9".data ++ " E".data :=
  ⟨C5_template_render.2.1 0 "1".data "abc".data (by decide) (by decide),
   C5_template_render.2.2.1 60 "9".data "A ".data " B ".data " C ".data " D ".data
     " E".data (by decide) (by decide) (by decide) (by decide) (by decide)
     (by decide) (by decide)⟩
